import Mathlib

/-!
# Verification of the `geometries` pose / transform / coordinate-conversion library

Shallow embedding of the Python sources under `geometries/` (pose.py,
position.py, orientation.py, transformation.py,
coordinate_system_conversions.py).  Floating-point numbers are modelled as
real numbers; numpy arrays as Lean lists or `Fin`-indexed functions;
`scipy.spatial.transform.Rotation` objects as the unit quaternion they store
(component order `(x, y, z, w)`, Hamilton convention, exactly scipy's).
Fallible code returns `Except String`.
-/

noncomputable section

namespace Geometries

/-- A quaternion in scipy's component order `(x, y, z, w)` (scalar last).
A `scipy.spatial.transform.Rotation` object is its (unit) quaternion. -/
structure Quat where
  x : ℝ
  y : ℝ
  z : ℝ
  w : ℝ

/-- Hamilton product, exactly scipy's `Rotation.__mul__` / `_compose_quat`
on `(x, y, z, w)`-ordered quaternions. -/
def Quat.mul (a b : Quat) : Quat :=
  ⟨a.w * b.x + a.x * b.w + a.y * b.z - a.z * b.y,
   a.w * b.y - a.x * b.z + a.y * b.w + a.z * b.x,
   a.w * b.z + a.x * b.y - a.y * b.x + a.z * b.w,
   a.w * b.w - a.x * b.x - a.y * b.y - a.z * b.z⟩

/-- Quaternion conjugate; for a unit quaternion this is scipy's `Rotation.inv`. -/
def Quat.conj (q : Quat) : Quat := ⟨-q.x, -q.y, -q.z, q.w⟩

/-- Squared norm of a quaternion. -/
def Quat.normSq (q : Quat) : ℝ := q.x ^ 2 + q.y ^ 2 + q.z ^ 2 + q.w ^ 2

/-- The identity quaternion `(0, 0, 0, 1)`. -/
def idQuat : Quat := ⟨0, 0, 0, 1⟩

/-- Rotation matrix of a unit quaternion: scipy's `Rotation.as_matrix`
formula (scipy stores quaternions normalized, so the formula assumes
`normSq q = 1`). -/
def quatToMat (q : Quat) : Matrix (Fin 3) (Fin 3) ℝ :=
  !![1 - 2 * (q.y ^ 2 + q.z ^ 2), 2 * (q.x * q.y - q.z * q.w), 2 * (q.x * q.z + q.y * q.w);
     2 * (q.x * q.y + q.z * q.w), 1 - 2 * (q.x ^ 2 + q.z ^ 2), 2 * (q.y * q.z - q.x * q.w);
     2 * (q.x * q.z - q.y * q.w), 2 * (q.y * q.z + q.x * q.w), 1 - 2 * (q.x ^ 2 + q.y ^ 2)]

/-- The homogeneous (norm-weighted) rotation matrix of a quaternion; agrees
with `quatToMat` on unit quaternions and is multiplicative on all of them. -/
def Hmat (q : Quat) : Matrix (Fin 3) (Fin 3) ℝ :=
  !![q.w ^ 2 + q.x ^ 2 - q.y ^ 2 - q.z ^ 2, 2 * (q.x * q.y - q.z * q.w), 2 * (q.x * q.z + q.y * q.w);
     2 * (q.x * q.y + q.z * q.w), q.w ^ 2 - q.x ^ 2 + q.y ^ 2 - q.z ^ 2, 2 * (q.y * q.z - q.x * q.w);
     2 * (q.x * q.z - q.y * q.w), 2 * (q.y * q.z + q.x * q.w), q.w ^ 2 - q.x ^ 2 - q.y ^ 2 + q.z ^ 2]

/-- Rotating a 3-vector by quaternion conjugation `q ⬝ (v, 0) ⬝ q*`:
"R applied as a vector rotation" in the specification's sense. -/
def rotateVec (q : Quat) (v : Fin 3 → ℝ) : Fin 3 → ℝ :=
  let p : Quat := ⟨v 0, v 1, v 2, 0⟩
  let r := q.mul (p.mul q.conj)
  ![r.x, r.y, r.z]

theorem quatToMat_eq_Hmat {q : Quat} (h : q.normSq = 1) : quatToMat q = Hmat q := by
  simp only [Quat.normSq] at h
  ext i j
  fin_cases i <;> fin_cases j <;>
    simp [quatToMat, Hmat] <;>
    linear_combination -h

theorem Hmat_mul (a b : Quat) : Hmat (a.mul b) = Hmat a * Hmat b := by
  ext i j
  fin_cases i <;> fin_cases j <;>
    simp [Hmat, Quat.mul, Matrix.mul_apply, Fin.sum_univ_three] <;> ring

theorem Quat.normSq_mul (a b : Quat) : (a.mul b).normSq = a.normSq * b.normSq := by
  simp [Quat.normSq, Quat.mul]; ring

theorem Quat.normSq_conj (q : Quat) : q.conj.normSq = q.normSq := by
  simp [Quat.normSq, Quat.conj]

theorem Quat.mul_conj_self (q : Quat) : q.mul q.conj = ⟨0, 0, 0, q.normSq⟩ := by
  simp only [Quat.mul, Quat.conj, Quat.normSq, Quat.mk.injEq]
  refine ⟨by ring, by ring, by ring, by ring⟩

theorem Hmat_id : Hmat idQuat = 1 := by
  ext i j
  fin_cases i <;> fin_cases j <;>
    simp [Hmat, idQuat, Matrix.one_apply, Matrix.vecHead, Matrix.vecTail]

theorem rotateVec_eq_Hmat_mulVec (q : Quat) (v : Fin 3 → ℝ) :
    rotateVec q v = (Hmat q).mulVec v := by
  funext i
  fin_cases i <;>
    simp [rotateVec, Hmat, Quat.mul, Quat.conj, Matrix.mulVec, Matrix.dotProduct,
      Fin.sum_univ_three] <;> ring

theorem Quat.conj_mul_self (q : Quat) : q.conj.mul q = ⟨0, 0, 0, q.normSq⟩ := by
  simp only [Quat.mul, Quat.conj, Quat.normSq, Quat.mk.injEq]
  refine ⟨by ring, by ring, by ring, by ring⟩

theorem Quat.mul_assoc (a b c : Quat) : (a.mul b).mul c = a.mul (b.mul c) := by
  simp only [Quat.mul, Quat.mk.injEq]
  refine ⟨by ring, by ring, by ring, by ring⟩

theorem Quat.id_mul (q : Quat) : idQuat.mul q = q := by
  obtain ⟨a, b, c, d⟩ := q
  simp only [Quat.mul, idQuat, Quat.mk.injEq]
  refine ⟨by ring, by ring, by ring, by ring⟩

theorem vec3_eta (v : Fin 3 → ℝ) : ![v 0, v 1, v 2] = v := by
  funext i; fin_cases i <;> simp

/-! ## Pose model (`position.py`, `orientation.py`, `pose.py`)

`Position._position` / `Orientation._orientation` are numpy arrays of the
scalar components; at the value level a `Position` is its three
coordinates and an `Orientation` its four quaternion components. -/

/-- Model of `Position` (`position.py`): the `[x, y, z]` position. -/
structure Position where
  x : ℝ
  y : ℝ
  z : ℝ

/-- Model of `Orientation` (`orientation.py`): the `[qx, qy, qz, qw]` quaternion. -/
structure Orientation where
  qx : ℝ
  qy : ℝ
  qz : ℝ
  qw : ℝ

/-- Model of `Pose` (`pose.py`): a position together with an orientation. -/
structure Pose where
  position : Position
  orientation : Orientation

/-- Model of `Pose.rotate_any` (`pose.py`): position mapped through the rotation
matrix of `R` (scipy's `R.apply`), orientation premultiplied by `R`
(scipy's `R * orig_rot`); `Rotation.from_quat` assumes/normalizes to a unit
quaternion, so orientations are modelled under the `‖q‖ = 1` invariant. -/
def Pose.rotate_any (p : Pose) (R : Quat) : Pose :=
  let pos : Fin 3 → ℝ := ![p.position.x, p.position.y, p.position.z]
  let new_pos := (quatToMat R).mulVec pos
  let orig_rot : Quat := ⟨p.orientation.qx, p.orientation.qy, p.orientation.qz, p.orientation.qw⟩
  let new_rot := R.mul orig_rot
  ⟨⟨new_pos 0, new_pos 1, new_pos 2⟩, ⟨new_rot.x, new_rot.y, new_rot.z, new_rot.w⟩⟩

/-- The constant `sin 45° = cos 45° = √2 / 2`, the nonzero components of a ±90° z-rotation. -/
def sqrtTwoHalf : ℝ := Real.sqrt 2 / 2

/-- The rotation `Rotation.from_euler('z', -90, degrees=True)` as a quaternion:
`(0, 0, sin(-45°), cos(-45°))`. -/
def quat_z_neg90 : Quat := ⟨0, 0, -sqrtTwoHalf, sqrtTwoHalf⟩

/-- The rotation `Rotation.from_euler('z', 90, degrees=True)` as a quaternion. -/
def quat_z_pos90 : Quat := ⟨0, 0, sqrtTwoHalf, sqrtTwoHalf⟩

/-- The rotation `Rotation.from_euler('x', 180, degrees=True)` as a quaternion:
`(sin 90°, 0, 0, cos 90°) = (1, 0, 0, 0)`. -/
def quat_x_180 : Quat := ⟨1, 0, 0, 0⟩

/-- Model of `Pose.flu_to_enu`: rotate about z by -90 degrees. -/
def Pose.flu_to_enu (p : Pose) : Pose := p.rotate_any quat_z_neg90

/-- Model of `Pose.flu_from_enu`: rotate about z by +90 degrees. -/
def Pose.flu_from_enu (p : Pose) : Pose := p.rotate_any quat_z_pos90

/-- Model of `Pose.flu_to_ned`: rotate about x by 180 degrees. -/
def Pose.flu_to_ned (p : Pose) : Pose := p.rotate_any quat_x_180

/-- Model of `Pose.flu_from_ned`: the source calls `flu_to_ned` verbatim. -/
def Pose.flu_from_ned (p : Pose) : Pose := p.flu_to_ned

theorem sq_sqrtTwoHalf : sqrtTwoHalf ^ 2 = 1 / 2 := by
  rw [sqrtTwoHalf, div_pow, Real.sq_sqrt (by norm_num : (0 : ℝ) ≤ 2)]
  norm_num

theorem normSq_quat_z_neg90 : quat_z_neg90.normSq = 1 := by
  simp [quat_z_neg90, Quat.normSq]
  linear_combination 2 * sq_sqrtTwoHalf

theorem normSq_quat_z_pos90 : quat_z_pos90.normSq = 1 := by
  simp [quat_z_pos90, Quat.normSq]
  linear_combination 2 * sq_sqrtTwoHalf

theorem normSq_quat_x_180 : quat_x_180.normSq = 1 := by
  norm_num [quat_x_180, Quat.normSq]

theorem quat_z_pos90_eq_conj : quat_z_pos90 = quat_z_neg90.conj := by
  simp [quat_z_pos90, quat_z_neg90, Quat.conj]

/-- Rotating a pose by a unit quaternion and then by its conjugate is the
identity on poses. -/
theorem rotate_any_conj_cancel (R : Quat) (h : R.normSq = 1) (p : Pose) :
    (p.rotate_any R).rotate_any R.conj = p := by
  obtain ⟨⟨px, py, pz⟩, ⟨a, b, c, d⟩⟩ := p
  have hconj : R.conj.mul R = idQuat := by
    rw [Quat.conj_mul_self, h]; rfl
  have hm : quatToMat R.conj * quatToMat R = 1 := by
    rw [quatToMat_eq_Hmat (by rw [Quat.normSq_conj]; exact h), quatToMat_eq_Hmat h,
      ← Hmat_mul, hconj, Hmat_id]
  have hq : R.conj.mul (R.mul ⟨a, b, c, d⟩) = ⟨a, b, c, d⟩ := by
    rw [← Quat.mul_assoc, hconj, Quat.id_mul]
  have hv : (quatToMat R.conj).mulVec ((quatToMat R).mulVec ![px, py, pz]) = ![px, py, pz] := by
    rw [Matrix.mulVec_mulVec, hm, Matrix.one_mulVec]
  simp only [Pose.rotate_any, vec3_eta ((quatToMat R).mulVec ![px, py, pz]), hv, hq,
    Pose.mk.injEq, Position.mk.injEq, Orientation.mk.injEq]
  norm_num

/-- C1: for every pose `p` and every rotation `R` (a unit quaternion, which
is what a scipy `Rotation` stores), `rotate_any R` returns a pose whose
position is `R` applied as a vector rotation (quaternion conjugation) to
`p`'s position and whose orientation is the quaternion product `R ∘
p.orientation` (left premultiplication); and the four FLU conversions are
exactly `rotate_any` at their fixed rotations. -/
theorem rotate_any_coherent (R : Quat) (p : Pose) (h : R.normSq = 1) :
    ![(p.rotate_any R).position.x, (p.rotate_any R).position.y, (p.rotate_any R).position.z]
      = rotateVec R ![p.position.x, p.position.y, p.position.z] ∧
    (⟨(p.rotate_any R).orientation.qx, (p.rotate_any R).orientation.qy,
      (p.rotate_any R).orientation.qz, (p.rotate_any R).orientation.qw⟩ : Quat)
      = R.mul ⟨p.orientation.qx, p.orientation.qy, p.orientation.qz, p.orientation.qw⟩ ∧
    (∀ q : Pose, q.flu_to_enu = q.rotate_any quat_z_neg90) ∧
    (∀ q : Pose, q.flu_from_enu = q.rotate_any quat_z_pos90) ∧
    (∀ q : Pose, q.flu_to_ned = q.rotate_any quat_x_180) ∧
    (∀ q : Pose, q.flu_from_ned = q.rotate_any quat_x_180) := by
  refine ⟨?_, rfl, fun _ => rfl, fun _ => rfl, fun _ => rfl, fun _ => rfl⟩
  rw [rotateVec_eq_Hmat_mulVec, ← quatToMat_eq_Hmat h]
  have hv := vec3_eta ((quatToMat R).mulVec ![p.position.x, p.position.y, p.position.z])
  exact hv

/-- Witness for C1 at the identity rotation and pose `((1,2,3), (0,0,0,1))`. -/
theorem rotate_any_coherent_witness :
    idQuat.normSq = 1 ∧
    (![(Pose.rotate_any ⟨⟨1, 2, 3⟩, ⟨0, 0, 0, 1⟩⟩ idQuat).position.x,
       (Pose.rotate_any ⟨⟨1, 2, 3⟩, ⟨0, 0, 0, 1⟩⟩ idQuat).position.y,
       (Pose.rotate_any ⟨⟨1, 2, 3⟩, ⟨0, 0, 0, 1⟩⟩ idQuat).position.z]
        = rotateVec idQuat ![1, 2, 3] ∧
     (⟨(Pose.rotate_any ⟨⟨1, 2, 3⟩, ⟨0, 0, 0, 1⟩⟩ idQuat).orientation.qx,
       (Pose.rotate_any ⟨⟨1, 2, 3⟩, ⟨0, 0, 0, 1⟩⟩ idQuat).orientation.qy,
       (Pose.rotate_any ⟨⟨1, 2, 3⟩, ⟨0, 0, 0, 1⟩⟩ idQuat).orientation.qz,
       (Pose.rotate_any ⟨⟨1, 2, 3⟩, ⟨0, 0, 0, 1⟩⟩ idQuat).orientation.qw⟩ : Quat)
        = idQuat.mul ⟨0, 0, 0, 1⟩ ∧
     (∀ q : Pose, q.flu_to_enu = q.rotate_any quat_z_neg90) ∧
     (∀ q : Pose, q.flu_from_enu = q.rotate_any quat_z_pos90) ∧
     (∀ q : Pose, q.flu_to_ned = q.rotate_any quat_x_180) ∧
     (∀ q : Pose, q.flu_from_ned = q.rotate_any quat_x_180)) :=
  have h : idQuat.normSq = 1 := by norm_num [idQuat, Quat.normSq]
  ⟨h, rotate_any_coherent idQuat ⟨⟨1, 2, 3⟩, ⟨0, 0, 0, 1⟩⟩ h⟩

/-- C3 counterexample: at the pose with identity orientation, applying
`flu_to_ned` twice negates the orientation quaternion (`qw` goes from `1`
to `-1`, a change of `2`, far beyond the `1e-9` tolerance), so
`flu_to_ned (flu_to_ned p)` does not equal `p`. -/
theorem flu_to_ned_twice_not_self_inverse :
    (Pose.flu_to_ned (Pose.flu_to_ned ⟨⟨0, 0, 0⟩, ⟨0, 0, 0, 1⟩⟩)).orientation.qw = -1 ∧
    (⟨⟨0, 0, 0⟩, ⟨0, 0, 0, 1⟩⟩ : Pose).orientation.qw = 1 ∧
    Pose.flu_to_ned (Pose.flu_to_ned ⟨⟨0, 0, 0⟩, ⟨0, 0, 0, 1⟩⟩) ≠ ⟨⟨0, 0, 0⟩, ⟨0, 0, 0, 1⟩⟩ ∧
    (1e-9 : ℝ) < |(-1 : ℝ) - 1| := by
  have h1 : (Pose.flu_to_ned (Pose.flu_to_ned ⟨⟨0, 0, 0⟩, ⟨0, 0, 0, 1⟩⟩)).orientation.qw = -1 := by
    norm_num [Pose.flu_to_ned, Pose.rotate_any, quat_x_180, Quat.mul]
  refine ⟨h1, rfl, fun hc => ?_, by norm_num⟩
  rw [hc] at h1
  norm_num at h1

/-- C3 (amended): `flu_from_enu ∘ flu_to_enu` is exactly the identity on
poses, and `flu_from_ned` is implemented exactly as `flu_to_ned`;
`flu_to_ned ∘ flu_to_ned` restores the position exactly but returns the
negated orientation quaternion (the same rotation, but not the same
components). -/
theorem flu_round_trips_amended (p : Pose) :
    Pose.flu_from_enu (Pose.flu_to_enu p) = p ∧
    (Pose.flu_to_ned (Pose.flu_to_ned p)).position = p.position ∧
    (Pose.flu_to_ned (Pose.flu_to_ned p)).orientation =
      ⟨-p.orientation.qx, -p.orientation.qy, -p.orientation.qz, -p.orientation.qw⟩ ∧
    (∀ q : Pose, q.flu_from_ned = q.flu_to_ned) := by
  refine ⟨?_, ?_, ?_, fun _ => rfl⟩
  · have hc := rotate_any_conj_cancel quat_z_neg90 normSq_quat_z_neg90 p
    rw [Pose.flu_from_enu, Pose.flu_to_enu, quat_z_pos90_eq_conj]
    exact hc
  · obtain ⟨⟨px, py, pz⟩, o⟩ := p
    simp [Pose.flu_to_ned, Pose.rotate_any, quat_x_180, quatToMat, Matrix.mulVec,
      Matrix.dotProduct, Fin.sum_univ_three, Position.mk.injEq]
    exact ⟨by ring, by ring⟩
  · obtain ⟨pos, ⟨a, b, c, d⟩⟩ := p
    simp [Pose.flu_to_ned, Pose.rotate_any, quat_x_180, Quat.mul, Orientation.mk.injEq]

/-! ## numpy arrays and the coordinate-system converters
(`coordinate_system_conversions.py`) -/

/-- A numpy array of floats of rank 1 or 2 (the only ranks this library
consumes): a flat vector, or a rectangular 2-d array given by its rows
together with its column count `shape[1]`. -/
inductive NDArray where
  | d1 : List ℝ → NDArray
  | d2 : List (List ℝ) → ℕ → NDArray

/-- The rank `arr.ndim`. -/
def NDArray.ndim : NDArray → ℕ
  | .d1 _ => 1
  | .d2 _ _ => 2

/-- The column count `arr.shape[1]` of a 2-d array. -/
def NDArray.cols : NDArray → ℕ
  | .d1 _ => 0
  | .d2 _ n => n

/-- Model of `np.arctan2 y x`: the argument of the complex number `x + y·i`,
valued in `(-π, π]` with `arctan2 0 0 = 0`. -/
def arctan2 (y x : ℝ) : ℝ := Complex.arg (x + y * Complex.I)

/-- Model of `np.clip v lo hi`. -/
def clip (v lo hi : ℝ) : ℝ := min (max v lo) hi

/-- One row of `spherical_to_cartesian`: `(r, θ, φ) ↦ (r sin φ cos θ,
r sin φ sin θ, r cos φ)`. -/
def sphericalRowToCartesian (p : List ℝ) : List ℝ :=
  let r := p.getD 0 0
  let theta := p.getD 1 0
  let phi := p.getD 2 0
  [r * Real.sin phi * Real.cos theta, r * Real.sin phi * Real.sin theta, r * Real.cos phi]

/-- One row of `cartesian_to_spherical`: `r = √(x²+y²+z²)`,
`θ = arctan2 y x`, `φ = arccos (clip (z/r) (-1) 1)`. -/
def cartesianRowToSpherical (p : List ℝ) : List ℝ :=
  let x := p.getD 0 0
  let y := p.getD 1 0
  let z := p.getD 2 0
  let r := Real.sqrt (x ^ 2 + y ^ 2 + z ^ 2)
  [r, arctan2 y x, Real.arccos (clip (z / r) (-1) 1)]

/-- One row of `cylindrical_to_cartesian`: `(r, θ, z) ↦ (r cos θ, r sin θ, z)`. -/
def cylindricalRowToCartesian (p : List ℝ) : List ℝ :=
  let r := p.getD 0 0
  let theta := p.getD 1 0
  let z := p.getD 2 0
  [r * Real.cos theta, r * Real.sin theta, z]

/-- One row of `cartesian_to_cylindrical`: `r = √(x²+y²)`, `θ = arctan2 y x`,
`z` unchanged. -/
def cartesianRowToCylindrical (p : List ℝ) : List ℝ :=
  let x := p.getD 0 0
  let y := p.getD 1 0
  let z := p.getD 2 0
  [Real.sqrt (x ^ 2 + y ^ 2), arctan2 y x, z]

/-- Model of `spherical_to_cartesian`: accepts only `ndim == 2 and shape[1] == 3`. -/
def spherical_to_cartesian : NDArray → Except String NDArray
  | .d2 rows n =>
    if n = 3 then .ok (.d2 (rows.map sphericalRowToCartesian) 3)
    else .error "spherical_to_cartesian: input points must be an Nx3 array of points."
  | .d1 _ => .error "spherical_to_cartesian: input points must be an Nx3 array of points."

/-- Model of `cartesian_to_spherical`: accepts only `ndim == 2 and shape[1] == 3`. -/
def cartesian_to_spherical : NDArray → Except String NDArray
  | .d2 rows n =>
    if n = 3 then .ok (.d2 (rows.map cartesianRowToSpherical) 3)
    else .error "cartesian_to_spherical: input points must be an Nx3 array of points."
  | .d1 _ => .error "cartesian_to_spherical: input points must be an Nx3 array of points."

/-- Model of `cylindrical_to_cartesian` (its error message names
`spherical_to_cartesian`, as in the source). -/
def cylindrical_to_cartesian : NDArray → Except String NDArray
  | .d2 rows n =>
    if n = 3 then .ok (.d2 (rows.map cylindricalRowToCartesian) 3)
    else .error "spherical_to_cartesian: input points must be an Nx3 array of points."
  | .d1 _ => .error "spherical_to_cartesian: input points must be an Nx3 array of points."

/-- Model of `cartesian_to_cylindrical` (its error message names
`cartesian_to_spherical`, as in the source). -/
def cartesian_to_cylindrical : NDArray → Except String NDArray
  | .d2 rows n =>
    if n = 3 then .ok (.d2 (rows.map cartesianRowToCylindrical) 3)
    else .error "cartesian_to_spherical: input points must be an Nx3 array of points."
  | .d1 _ => .error "cartesian_to_spherical: input points must be an Nx3 array of points."

/-! ## `Transformation` (`transformation.py`) -/

/-- Model of `Transformation`: translation, quaternion rotation, and the 4×4
homogeneous matrix cached by `__init__`. -/
structure Transformation where
  translation : Fin 3 → ℝ
  rotation : Quat
  transformation_matrix : Matrix (Fin 4) (Fin 4) ℝ

/-- Model of `compute_transformation_matrix`: start from `np.eye(4)`, overwrite the
upper-left 3×3 block with the rotation matrix of the quaternion and the
first three entries of column 3 with the translation (row 3 keeps the
identity's `(0,0,0,1)`). -/
def compute_transformation_matrix (rotation : Quat) (translation : Fin 3 → ℝ) :
    Matrix (Fin 4) (Fin 4) ℝ :=
  Matrix.of fun i j =>
    if hi : (i : ℕ) < 3 then
      if hj : (j : ℕ) < 3 then quatToMat rotation ⟨i, hi⟩ ⟨j, hj⟩
      else translation ⟨i, hi⟩
    else (1 : Matrix (Fin 4) (Fin 4) ℝ) i j

/-- Model of `Transformation.__init__`: stores the translation and rotation and
caches the transformation matrix. -/
def Transformation.make (translation : Fin 3 → ℝ) (rotation : Quat) : Transformation :=
  ⟨translation, rotation, compute_transformation_matrix rotation translation⟩

/-- Single-point branch of `apply_transformation`: append `1`, multiply by
the cached matrix (`matrix.dot(point_homogeneous)`), keep the first three
coordinates. -/
def applySingleRow (M : Matrix (Fin 4) (Fin 4) ℝ) (v : List ℝ) : List ℝ :=
  let vh := v ++ [1]
  (List.ofFn fun i : Fin 4 => ∑ k : Fin 4, M i k * vh.getD k.val 0).take 3

/-- Batch branch of `apply_transformation`, per row: append `1`, multiply
by the transposed cached matrix (`points_homogeneous.dot(matrix.T)`), keep
the first three columns. -/
def applyBatchRow (M : Matrix (Fin 4) (Fin 4) ℝ) (v : List ℝ) : List ℝ :=
  let vh := v ++ [1]
  (List.ofFn fun j : Fin 4 => ∑ k : Fin 4, vh.getD k.val 0 * M j k).take 3

/-- Model of `Transformation.apply_transformation`: dispatch on the input shape,
rejecting anything that is neither `(3,)` nor `N×3`. -/
def Transformation.apply_transformation (t : Transformation) : NDArray → Except String NDArray
  | .d1 v =>
    if v.length = 3 then .ok (.d1 (applySingleRow t.transformation_matrix v))
    else .error "Input points must be a 3D point (3,) or an Nx3 array of points."
  | .d2 rows n =>
    if n = 3 then .ok (.d2 (rows.map (applyBatchRow t.transformation_matrix)) 3)
    else .error "Input points must be a 3D point (3,) or an Nx3 array of points."

/-- The module-level global bindings of `transformation.py` that hold
quaternion values when the module is imported: there are none.  The names
`parent_rotation` and `child_rotation` are bound only by the
`if __name__ == "__main__"` example block, which does not run on import. -/
def transformationModuleGlobals : List (String × Quat) := []

/-- Python global-name resolution: look a name up in the module globals,
raising `NameError` when it is absent. -/
def lookupName (env : List (String × Quat)) (n : String) : Except String Quat :=
  match env.find? (fun p => p.1 = n) with
  | some p => .ok p.2
  | none => .error ("NameError: name " ++ n ++ " is not defined")

/-- Model of `Transformation.from_global_poses`: computes the translation, then
evaluates `Rotation.from_quat(parent_rotation)` whose argument is the
unbound global name `parent_rotation`, so name resolution fails; the
remaining lines (`child_rotation`, the nonexistent `Rotation.multiply`
attribute) are modelled after it in evaluation order. -/
def Transformation.from_global_poses (parent_pose child_pose : Pose) :
    Except String Transformation := do
  let _translation : Fin 3 → ℝ :=
    ![child_pose.position.x - parent_pose.position.x,
      child_pose.position.y - parent_pose.position.y,
      child_pose.position.z - parent_pose.position.z]
  let _pr ← lookupName transformationModuleGlobals "parent_rotation"
  let _cr ← lookupName transformationModuleGlobals "child_rotation"
  .error "AttributeError: Rotation object has no attribute multiply"

/-- Normalization of a quaternion (the final step of scipy's
`Rotation.from_matrix`). -/
def normalizeQuat (q : Quat) : Quat :=
  let n := Real.sqrt q.normSq
  ⟨q.x / n, q.y / n, q.z / n, q.w / n⟩

/-- scipy's `Rotation.from_matrix` for a single rotation matrix: pick the
first maximum of `[m00, m11, m22, trace]` (numpy `argmax` tie-breaking),
build the corresponding unnormalized quaternion, normalize. -/
def matrixToQuat (M : Matrix (Fin 3) (Fin 3) ℝ) : Quat :=
  let d0 := M 0 0
  let d1 := M 1 1
  let d2 := M 2 2
  let tr := d0 + d1 + d2
  if d0 ≥ d1 ∧ d0 ≥ d2 ∧ d0 ≥ tr then
    normalizeQuat ⟨1 - tr + 2 * M 0 0, M 1 0 + M 0 1, M 2 0 + M 0 2, M 2 1 - M 1 2⟩
  else if d1 ≥ d2 ∧ d1 ≥ tr then
    normalizeQuat ⟨M 0 1 + M 1 0, 1 - tr + 2 * M 1 1, M 2 1 + M 1 2, M 0 2 - M 2 0⟩
  else if d2 ≥ tr then
    normalizeQuat ⟨M 0 2 + M 2 0, M 1 2 + M 2 1, 1 - tr + 2 * M 2 2, M 1 0 - M 0 1⟩
  else
    normalizeQuat ⟨M 2 1 - M 1 2, M 0 2 - M 2 0, M 1 0 - M 0 1, 1 + tr⟩

/-- Model of `Transformation.from_global_poses_backup`: translation is the global
position difference; the relative rotation matrix is
`child_matrix · parent_matrix⁻¹` (`np.linalg.inv`), converted back to a
quaternion by `Rotation.from_matrix`. -/
def Transformation.from_global_poses_backup (parent_position : Fin 3 → ℝ)
    (parent_rotation : Quat) (child_position : Fin 3 → ℝ) (child_rotation : Quat) :
    Transformation :=
  let translation : Fin 3 → ℝ := fun i => child_position i - parent_position i
  let parent_rotation_matrix := quatToMat parent_rotation
  let child_rotation_matrix := quatToMat child_rotation
  let relative_rotation_matrix := child_rotation_matrix * parent_rotation_matrix⁻¹
  let relative_rotation := matrixToQuat relative_rotation_matrix
  Transformation.make translation relative_rotation

/-! ## Object-level model of `rotate_any` (allocation and aliasing)

`Position` and `Orientation` objects own a numpy buffer
(`self._position`, `self._orientation`).  The heap of live buffers is a
list, a buffer's address its index; `rotate_any` reads the receiver's
buffers and allocates fresh ones (`R.apply` returns a new array, and the
`Position` / `Orientation` constructors call `np.array`, which copies). -/

/-- A `Position` object: the reference to its `_position` buffer. -/
structure PositionRef where
  addr : ℕ

/-- An `Orientation` object: the reference to its `_orientation` buffer. -/
structure OrientationRef where
  addr : ℕ

/-- A `Pose` object: references to its `Position` and `Orientation`. -/
structure PoseRef where
  pos : PositionRef
  ori : OrientationRef

/-- Read the buffer stored at an address. -/
def readArr (st : List (List ℝ)) (a : ℕ) : List ℝ := st.getD a []

/-- Object-level `rotate_any`: read the receiver's position and orientation
buffers, compute the rotated position and the composed quaternion, allocate
two fresh buffers for the new `Position` and `Orientation`, and return the
new `Pose` pointing at them; the receiver is only read. -/
def rotate_any_impl (st : List (List ℝ)) (p : PoseRef) (R : Quat) :
    List (List ℝ) × PoseRef :=
  let pos := readArr st p.pos.addr
  let new_pos := (quatToMat R).mulVec ![pos.getD 0 0, pos.getD 1 0, pos.getD 2 0]
  let q := readArr st p.ori.addr
  let orig_rot : Quat := ⟨q.getD 0 0, q.getD 1 0, q.getD 2 0, q.getD 3 0⟩
  let new_rot := R.mul orig_rot
  (st ++ [[new_pos 0, new_pos 1, new_pos 2], [new_rot.x, new_rot.y, new_rot.z, new_rot.w]],
   ⟨⟨st.length⟩, ⟨st.length + 1⟩⟩)

/-- Object-level `flu_to_enu`. -/
def flu_to_enu_impl (st : List (List ℝ)) (p : PoseRef) : List (List ℝ) × PoseRef :=
  rotate_any_impl st p quat_z_neg90

/-- Object-level `flu_from_enu`. -/
def flu_from_enu_impl (st : List (List ℝ)) (p : PoseRef) : List (List ℝ) × PoseRef :=
  rotate_any_impl st p quat_z_pos90

/-- Object-level `flu_to_ned`. -/
def flu_to_ned_impl (st : List (List ℝ)) (p : PoseRef) : List (List ℝ) × PoseRef :=
  rotate_any_impl st p quat_x_180

/-- Object-level `flu_from_ned`. -/
def flu_from_ned_impl (st : List (List ℝ)) (p : PoseRef) : List (List ℝ) × PoseRef :=
  flu_to_ned_impl st p

/-- C8: `rotate_any` leaves every component of the receiver unchanged (the
receiver's position and orientation buffers read exactly as before) and the
returned pose points at freshly allocated buffers disjoint from the
receiver's; the four FLU conversions are this primitive at a fixed
rotation. -/
theorem rotate_any_pure (st : List (List ℝ)) (p : PoseRef) (R : Quat)
    (h1 : p.pos.addr < st.length) (h2 : p.ori.addr < st.length) :
    readArr (rotate_any_impl st p R).1 p.pos.addr = readArr st p.pos.addr ∧
    readArr (rotate_any_impl st p R).1 p.ori.addr = readArr st p.ori.addr ∧
    (rotate_any_impl st p R).2.pos.addr ≠ p.pos.addr ∧
    (rotate_any_impl st p R).2.pos.addr ≠ p.ori.addr ∧
    (rotate_any_impl st p R).2.ori.addr ≠ p.pos.addr ∧
    (rotate_any_impl st p R).2.ori.addr ≠ p.ori.addr ∧
    (∀ s q, flu_to_enu_impl s q = rotate_any_impl s q quat_z_neg90) ∧
    (∀ s q, flu_from_enu_impl s q = rotate_any_impl s q quat_z_pos90) ∧
    (∀ s q, flu_to_ned_impl s q = rotate_any_impl s q quat_x_180) ∧
    (∀ s q, flu_from_ned_impl s q = rotate_any_impl s q quat_x_180) := by
  refine ⟨List.getD_append _ _ _ _ h1, List.getD_append _ _ _ _ h2,
    by simp [rotate_any_impl]; omega, by simp [rotate_any_impl]; omega,
    by simp [rotate_any_impl]; omega, by simp [rotate_any_impl]; omega,
    fun _ _ => rfl, fun _ _ => rfl, fun _ _ => rfl, fun _ _ => rfl⟩

/-- Witness for C8 on a two-buffer heap holding the pose
`((0,0,0), (0,0,0,1))`, rotated by the identity quaternion. -/
theorem rotate_any_pure_witness :
    (PoseRef.mk ⟨0⟩ ⟨1⟩).pos.addr < ([[0, 0, 0], [0, 0, 0, 1]] : List (List ℝ)).length ∧
    (PoseRef.mk ⟨0⟩ ⟨1⟩).ori.addr < ([[0, 0, 0], [0, 0, 0, 1]] : List (List ℝ)).length ∧
    readArr (rotate_any_impl [[0, 0, 0], [0, 0, 0, 1]] ⟨⟨0⟩, ⟨1⟩⟩ idQuat).1 0
      = readArr [[0, 0, 0], [0, 0, 0, 1]] 0 ∧
    readArr (rotate_any_impl [[0, 0, 0], [0, 0, 0, 1]] ⟨⟨0⟩, ⟨1⟩⟩ idQuat).1 1
      = readArr [[0, 0, 0], [0, 0, 0, 1]] 1 ∧
    (rotate_any_impl [[0, 0, 0], [0, 0, 0, 1]] ⟨⟨0⟩, ⟨1⟩⟩ idQuat).2.pos.addr ≠ 0 ∧
    (rotate_any_impl [[0, 0, 0], [0, 0, 0, 1]] ⟨⟨0⟩, ⟨1⟩⟩ idQuat).2.ori.addr ≠ 1 := by
  have h1 : (PoseRef.mk ⟨0⟩ ⟨1⟩).pos.addr < ([[0, 0, 0], [0, 0, 0, 1]] : List (List ℝ)).length := by
    simp
  have h2 : (PoseRef.mk ⟨0⟩ ⟨1⟩).ori.addr < ([[0, 0, 0], [0, 0, 0, 1]] : List (List ℝ)).length := by
    simp
  have h := rotate_any_pure [[0, 0, 0], [0, 0, 0, 1]] ⟨⟨0⟩, ⟨1⟩⟩ idQuat h1 h2
  exact ⟨h1, h2, h.1, h.2.1, h.2.2.1, h.2.2.2.2.2.1⟩

/-- C2: `from_global_poses` fails with the undefined-variable error on
`parent_rotation` for every pair of input poses; it never returns a
`Transformation`. -/
theorem from_global_poses_always_name_error (parent_pose child_pose : Pose) :
    Transformation.from_global_poses parent_pose child_pose
      = .error "NameError: name parent_rotation is not defined" := by
  rfl

/-- The batch row map of `apply_transformation` computes exactly the
single-point map (the two dot products are transposes of each other). -/
theorem applyBatchRow_eq_applySingleRow (M : Matrix (Fin 4) (Fin 4) ℝ) (v : List ℝ) :
    applyBatchRow M v = applySingleRow M v := by
  simp only [applyBatchRow, applySingleRow]
  have hfn : (fun j : Fin 4 => ∑ k : Fin 4, (v ++ [1]).getD k.val 0 * M j k)
      = fun i : Fin 4 => ∑ k : Fin 4, M i k * (v ++ [1]).getD k.val 0 := by
    funext j
    exact Finset.sum_congr rfl fun k _ => mul_comm _ _
  rw [hfn]

/-- The cached 4×4 matrix written out entry by entry: the rotation block,
the translation column, and the homogeneous `(0,0,0,1)` bottom row. -/
theorem compute_matrix_explicit (q : Quat) (t3 : Fin 3 → ℝ) :
    compute_transformation_matrix q t3 =
      !![quatToMat q 0 0, quatToMat q 0 1, quatToMat q 0 2, t3 0;
         quatToMat q 1 0, quatToMat q 1 1, quatToMat q 1 2, t3 1;
         quatToMat q 2 0, quatToMat q 2 1, quatToMat q 2 2, t3 2;
         0, 0, 0, 1] := by
  ext i j
  fin_cases i <;> fin_cases j <;> rfl

/-- The single-point map at a length-3 row is the affine map `R·p + t` of
the stored rotation and translation. -/
theorem applySingleRow_make (t3 : Fin 3 → ℝ) (q : Quat) (a b c : ℝ) :
    applySingleRow (Transformation.make t3 q).transformation_matrix [a, b, c]
      = [((quatToMat q).mulVec ![a, b, c] + t3) 0,
         ((quatToMat q).mulVec ![a, b, c] + t3) 1,
         ((quatToMat q).mulVec ![a, b, c] + t3) 2] := by
  have hof : applySingleRow (Transformation.make t3 q).transformation_matrix [a, b, c]
      = [∑ k : Fin 4, compute_transformation_matrix q t3 0 k * [a, b, c, 1].getD k.val 0,
         ∑ k : Fin 4, compute_transformation_matrix q t3 1 k * [a, b, c, 1].getD k.val 0,
         ∑ k : Fin 4, compute_transformation_matrix q t3 2 k * [a, b, c, 1].getD k.val 0] :=
    rfl
  have h0 : ((0 : Fin 4) : ℕ) = 0 := rfl
  have h1 : ((1 : Fin 4) : ℕ) = 1 := rfl
  have h2 : ((2 : Fin 4) : ℕ) = 2 := rfl
  have h3 : ((3 : Fin 4) : ℕ) = 3 := rfl
  rw [hof, compute_matrix_explicit]
  simp [Fin.sum_univ_four, h0, h1, h2, h3, Matrix.mulVec, Matrix.dotProduct,
    Fin.sum_univ_three, List.getD]

/-- Evaluation of `apply_transformation` on a single 3-vector, in affine form. -/
theorem apply_d1_make (t3 : Fin 3 → ℝ) (q : Quat) (a b c : ℝ) :
    (Transformation.make t3 q).apply_transformation (.d1 [a, b, c])
      = .ok (.d1 [((quatToMat q).mulVec ![a, b, c] + t3) 0,
                  ((quatToMat q).mulVec ![a, b, c] + t3) 1,
                  ((quatToMat q).mulVec ![a, b, c] + t3) 2]) := by
  have h0 : (Transformation.make t3 q).apply_transformation (.d1 [a, b, c])
      = .ok (.d1 (applySingleRow (Transformation.make t3 q).transformation_matrix [a, b, c])) :=
    rfl
  rw [h0, applySingleRow_make]

/-- Evaluation of `apply_transformation` on an N×3 batch, row-wise in affine form. -/
theorem apply_d2_make (t3 : Fin 3 → ℝ) (q : Quat) (rows : List (List ℝ))
    (h : ∀ r ∈ rows, r.length = 3) :
    (Transformation.make t3 q).apply_transformation (.d2 rows 3)
      = .ok (.d2 (rows.map fun r =>
          [((quatToMat q).mulVec ![r.getD 0 0, r.getD 1 0, r.getD 2 0] + t3) 0,
           ((quatToMat q).mulVec ![r.getD 0 0, r.getD 1 0, r.getD 2 0] + t3) 1,
           ((quatToMat q).mulVec ![r.getD 0 0, r.getD 1 0, r.getD 2 0] + t3) 2]) 3) := by
  have h0 : (Transformation.make t3 q).apply_transformation (.d2 rows 3)
      = .ok (.d2 (rows.map (applyBatchRow (Transformation.make t3 q).transformation_matrix)) 3) :=
    rfl
  rw [h0]
  have hmap : rows.map (applyBatchRow (Transformation.make t3 q).transformation_matrix)
      = rows.map fun r =>
          [((quatToMat q).mulVec ![r.getD 0 0, r.getD 1 0, r.getD 2 0] + t3) 0,
           ((quatToMat q).mulVec ![r.getD 0 0, r.getD 1 0, r.getD 2 0] + t3) 1,
           ((quatToMat q).mulVec ![r.getD 0 0, r.getD 1 0, r.getD 2 0] + t3) 2] := by
    refine List.map_congr_left fun r hr => ?_
    obtain ⟨a, b, c, rfl⟩ := List.length_eq_three.mp (h r hr)
    rw [applyBatchRow_eq_applySingleRow, applySingleRow_make]
    simp
  rw [hmap]

/-- C4: the constructor caches the homogeneous matrix `[[R, t], [0, 1]]`;
`apply_transformation` maps a single 3-vector to `R·p + t` and a batch
row-wise through the same affine map; concretely, translation `(1,2,3)`
with identity rotation sends `[0,0,0]` to `[1,2,3]`, and the identity
transformation is the identity on both shapes. -/
theorem transformation_make_apply (t3 : Fin 3 → ℝ) (q : Quat) :
    (∀ i j : Fin 3,
        (Transformation.make t3 q).transformation_matrix i.castSucc j.castSucc
          = quatToMat q i j) ∧
    (∀ i : Fin 3, (Transformation.make t3 q).transformation_matrix i.castSucc 3 = t3 i) ∧
    (∀ j : Fin 4, (Transformation.make t3 q).transformation_matrix 3 j
        = if j = 3 then 1 else 0) ∧
    (∀ a b c : ℝ,
        (Transformation.make t3 q).apply_transformation (.d1 [a, b, c])
          = .ok (.d1 [((quatToMat q).mulVec ![a, b, c] + t3) 0,
                      ((quatToMat q).mulVec ![a, b, c] + t3) 1,
                      ((quatToMat q).mulVec ![a, b, c] + t3) 2])) ∧
    (∀ rows : List (List ℝ), (∀ r ∈ rows, r.length = 3) →
        (Transformation.make t3 q).apply_transformation (.d2 rows 3)
          = .ok (.d2 (rows.map fun r =>
              [((quatToMat q).mulVec ![r.getD 0 0, r.getD 1 0, r.getD 2 0] + t3) 0,
               ((quatToMat q).mulVec ![r.getD 0 0, r.getD 1 0, r.getD 2 0] + t3) 1,
               ((quatToMat q).mulVec ![r.getD 0 0, r.getD 1 0, r.getD 2 0] + t3) 2]) 3)) ∧
    ((Transformation.make ![1, 2, 3] idQuat).apply_transformation (.d1 [0, 0, 0])
        = .ok (.d1 [1, 2, 3])) ∧
    (∀ v : List ℝ, v.length = 3 →
        (Transformation.make ![0, 0, 0] idQuat).apply_transformation (.d1 v) = .ok (.d1 v)) ∧
    (∀ rows : List (List ℝ), (∀ r ∈ rows, r.length = 3) →
        (Transformation.make ![0, 0, 0] idQuat).apply_transformation (.d2 rows 3)
          = .ok (.d2 rows 3)) := by
  refine ⟨fun i j => by fin_cases i <;> fin_cases j <;> rfl,
    fun i => by fin_cases i <;> rfl,
    fun j => by fin_cases j <;> rfl,
    apply_d1_make t3 q,
    apply_d2_make t3 q,
    ?_, ?_, ?_⟩
  · rw [apply_d1_make]
    norm_num [quatToMat, idQuat, Matrix.mulVec, Matrix.dotProduct, Fin.sum_univ_three]
  · intro v h
    obtain ⟨a, b, c, rfl⟩ := List.length_eq_three.mp h
    rw [apply_d1_make]
    norm_num [quatToMat, idQuat, Matrix.mulVec, Matrix.dotProduct, Fin.sum_univ_three]
  · intro rows h
    rw [apply_d2_make _ _ rows h]
    refine congrArg _ (congrArg (fun l => NDArray.d2 l 3) ?_)
    conv_rhs => rw [← List.map_id rows]
    refine List.map_congr_left fun r hr => ?_
    obtain ⟨a, b, c, rfl⟩ := List.length_eq_three.mp (h r hr)
    norm_num [quatToMat, idQuat, Matrix.mulVec, Matrix.dotProduct, Fin.sum_univ_three]

/-- Witness for C4: concrete single-point, identity-single and
identity-batch applications. -/
theorem transformation_make_apply_witness :
    ([5, 6, 7] : List ℝ).length = 3 ∧
    (∀ r ∈ ([[5, 6, 7]] : List (List ℝ)), r.length = 3) ∧
    (Transformation.make ![1, 2, 3] idQuat).apply_transformation (.d1 [0, 0, 0])
      = .ok (.d1 [1, 2, 3]) ∧
    (Transformation.make ![0, 0, 0] idQuat).apply_transformation (.d1 [5, 6, 7])
      = .ok (.d1 [5, 6, 7]) ∧
    (Transformation.make ![0, 0, 0] idQuat).apply_transformation (.d2 [[5, 6, 7]] 3)
      = .ok (.d2 [[5, 6, 7]] 3) := by
  have hlen : ([5, 6, 7] : List ℝ).length = 3 := rfl
  have hrows : ∀ r ∈ ([[5, 6, 7]] : List (List ℝ)), r.length = 3 := by
    intro r hr
    simp only [List.mem_singleton] at hr
    subst hr
    rfl
  exact ⟨hlen, hrows, (transformation_make_apply ![1, 2, 3] idQuat).2.2.2.2.2.1,
    (transformation_make_apply ![1, 2, 3] idQuat).2.2.2.2.2.2.1 [5, 6, 7] hlen,
    (transformation_make_apply ![1, 2, 3] idQuat).2.2.2.2.2.2.2 [[5, 6, 7]] hrows⟩

/-- C9: on a 1×3 batch whose only row is `v`, `apply_transformation`
returns the 1×3 array whose single row is exactly the single-point result
on the bare `(3,)` vector `v`. -/
theorem apply_single_batch_agree (T : Transformation) (v : List ℝ) (h : v.length = 3) :
    T.apply_transformation (.d2 [v] 3)
      = .ok (.d2 [applySingleRow T.transformation_matrix v] 3) ∧
    T.apply_transformation (.d1 v) = .ok (.d1 (applySingleRow T.transformation_matrix v)) := by
  constructor
  · have h0 : T.apply_transformation (.d2 [v] 3)
        = .ok (.d2 ([v].map (applyBatchRow T.transformation_matrix)) 3) := rfl
    rw [h0]
    simp [applyBatchRow_eq_applySingleRow]
  · simp [Transformation.apply_transformation, h]

/-- Witness for C9 at translation `(1,2,3)`, identity rotation, `v = [0,0,0]`. -/
theorem apply_single_batch_agree_witness :
    ([0, 0, 0] : List ℝ).length = 3 ∧
    ((Transformation.make ![1, 2, 3] idQuat).apply_transformation (.d2 [[0, 0, 0]] 3)
       = .ok (.d2 [applySingleRow (Transformation.make ![1, 2, 3] idQuat).transformation_matrix
           [0, 0, 0]] 3) ∧
     (Transformation.make ![1, 2, 3] idQuat).apply_transformation (.d1 [0, 0, 0])
       = .ok (.d1 (applySingleRow (Transformation.make ![1, 2, 3] idQuat).transformation_matrix
           [0, 0, 0]))) :=
  ⟨rfl, apply_single_batch_agree (Transformation.make ![1, 2, 3] idQuat) [0, 0, 0] rfl⟩

/-- C6: every array whose shape a converter rejects (any non-2-d array,
including flat 3-vectors, and any 2-d array without exactly 3 columns)
makes all four coordinate converters return a ValueError, and
`apply_transformation` errors on anything that is neither `(3,)` nor
`N×3`; nothing is silently truncated. -/
theorem shape_errors :
    (∀ arr : NDArray, ¬(arr.ndim = 2 ∧ arr.cols = 3) →
      (∃ e, spherical_to_cartesian arr = .error e) ∧
      (∃ e, cartesian_to_spherical arr = .error e) ∧
      (∃ e, cylindrical_to_cartesian arr = .error e) ∧
      (∃ e, cartesian_to_cylindrical arr = .error e)) ∧
    (∀ (T : Transformation) (arr : NDArray),
      ¬((∃ v, arr = .d1 v ∧ v.length = 3) ∨ (arr.ndim = 2 ∧ arr.cols = 3)) →
      ∃ e, T.apply_transformation arr = .error e) := by
  constructor
  · intro arr h
    cases arr with
    | d1 v => exact ⟨⟨_, rfl⟩, ⟨_, rfl⟩, ⟨_, rfl⟩, ⟨_, rfl⟩⟩
    | d2 rows n =>
      have hn : n ≠ 3 := fun hc => h ⟨rfl, hc⟩
      refine ⟨⟨"spherical_to_cartesian: input points must be an Nx3 array of points.", ?_⟩,
        ⟨"cartesian_to_spherical: input points must be an Nx3 array of points.", ?_⟩,
        ⟨"spherical_to_cartesian: input points must be an Nx3 array of points.", ?_⟩,
        ⟨"cartesian_to_spherical: input points must be an Nx3 array of points.", ?_⟩⟩
      · simp only [spherical_to_cartesian]
        rw [if_neg hn]
      · simp only [cartesian_to_spherical]
        rw [if_neg hn]
      · simp only [cylindrical_to_cartesian]
        rw [if_neg hn]
      · simp only [cartesian_to_cylindrical]
        rw [if_neg hn]
  · intro T arr h
    cases arr with
    | d1 v =>
      have hv : v.length ≠ 3 := fun hc => h (.inl ⟨v, rfl, hc⟩)
      refine ⟨"Input points must be a 3D point (3,) or an Nx3 array of points.", ?_⟩
      simp only [Transformation.apply_transformation]
      rw [if_neg hv]
    | d2 rows n =>
      have hn : n ≠ 3 := fun hc => h (.inr ⟨rfl, hc⟩)
      refine ⟨"Input points must be a 3D point (3,) or an Nx3 array of points.", ?_⟩
      simp only [Transformation.apply_transformation]
      rw [if_neg hn]

/-- Witness for C6 at the 2-column array `[[1, 2]]` and the flat 2-vector
`[1, 2]`. -/
theorem shape_errors_witness :
    ¬((NDArray.d2 [[1, 2]] 2).ndim = 2 ∧ (NDArray.d2 [[1, 2]] 2).cols = 3) ∧
    (∃ e, spherical_to_cartesian (.d2 [[1, 2]] 2) = .error e) ∧
    (∃ e, cartesian_to_spherical (.d2 [[1, 2]] 2) = .error e) ∧
    (∃ e, cylindrical_to_cartesian (.d2 [[1, 2]] 2) = .error e) ∧
    (∃ e, cartesian_to_cylindrical (.d2 [[1, 2]] 2) = .error e) ∧
    ¬((∃ v, NDArray.d1 [1, 2] = NDArray.d1 v ∧ v.length = 3) ∨
      ((NDArray.d1 [1, 2]).ndim = 2 ∧ (NDArray.d1 [1, 2]).cols = 3)) ∧
    (∃ e, (Transformation.make ![0, 0, 0] idQuat).apply_transformation (.d1 [1, 2])
      = .error e) := by
  have hbad : ¬((NDArray.d2 ([[1, 2]] : List (List ℝ)) 2).ndim = 2 ∧
      (NDArray.d2 ([[1, 2]] : List (List ℝ)) 2).cols = 3) := by
    simp [NDArray.ndim, NDArray.cols]
  have hbad1 : ¬((∃ v, NDArray.d1 ([1, 2] : List ℝ) = NDArray.d1 v ∧ v.length = 3) ∨
      ((NDArray.d1 ([1, 2] : List ℝ)).ndim = 2 ∧ (NDArray.d1 ([1, 2] : List ℝ)).cols = 3)) := by
    rintro (⟨v, hv, hlen⟩ | ⟨h2, _⟩)
    · cases hv
      simp at hlen
    · simp [NDArray.ndim] at h2
  obtain ⟨e1, e2, e3, e4⟩ := shape_errors.1 _ hbad
  exact ⟨hbad, e1, e2, e3, e4, hbad1, shape_errors.2 _ _ hbad1⟩

/-- Componentwise scaling of a quaternion (proof-side helper). -/
def smulQ (c : ℝ) (q : Quat) : Quat := ⟨c * q.x, c * q.y, c * q.z, c * q.w⟩

theorem normSq_smulQ (c : ℝ) (q : Quat) : (smulQ c q).normSq = c ^ 2 * q.normSq := by
  simp only [Quat.normSq, smulQ]
  ring

theorem Hmat_smulQ (s : ℝ) (u : Quat) : Hmat (smulQ s u) = s ^ 2 • Hmat u := by
  ext i j
  fin_cases i <;> fin_cases j <;>
    simp [Hmat, smulQ, Matrix.smul_apply] <;> ring

/-- Normalizing a nonzero scalar multiple of a unit quaternion gives `±` the
quaternion, whose rotation matrix is unchanged. -/
theorem quatToMat_normalize_smul (u : Quat) (hu : u.normSq = 1) (c : ℝ) (hc : c ≠ 0) :
    quatToMat (normalizeQuat (smulQ c u)) = quatToMat u := by
  have hns : (smulQ c u).normSq = c ^ 2 := by rw [normSq_smulQ, hu, mul_one]
  have hns' : ({ x := c * u.x, y := c * u.y, z := c * u.z, w := c * u.w } : Quat).normSq
      = c ^ 2 := hns
  have hnorm : normalizeQuat (smulQ c u) = smulQ (c / |c|) u := by
    simp only [normalizeQuat, smulQ, Quat.mk.injEq, hns', Real.sqrt_sq_eq_abs]
    refine ⟨by ring, by ring, by ring, by ring⟩
  have hs : (c / |c|) ^ 2 = 1 := by
    rw [div_pow, sq_abs]
    exact div_self (pow_ne_zero 2 hc)
  have hu2 : (smulQ (c / |c|) u).normSq = 1 := by rw [normSq_smulQ, hs, hu, mul_one]
  rw [hnorm, quatToMat_eq_Hmat hu2, quatToMat_eq_Hmat hu, Hmat_smulQ, hs, one_smul]

set_option maxHeartbeats 1000000 in
/-- The map `Rotation.from_matrix` is a right inverse of `Rotation.as_matrix` up to
quaternion sign: the recovered quaternion has the same rotation matrix. -/
theorem quatToMat_matrixToQuat (u : Quat) (hu : u.normSq = 1) :
    quatToMat (matrixToQuat (quatToMat u)) = quatToMat u := by
  have hu' : u.x ^ 2 + u.y ^ 2 + u.z ^ 2 + u.w ^ 2 = 1 := hu
  have e00 : quatToMat u 0 0 = 1 - 2 * (u.y ^ 2 + u.z ^ 2) := rfl
  have e01 : quatToMat u 0 1 = 2 * (u.x * u.y - u.z * u.w) := rfl
  have e02 : quatToMat u 0 2 = 2 * (u.x * u.z + u.y * u.w) := rfl
  have e10 : quatToMat u 1 0 = 2 * (u.x * u.y + u.z * u.w) := rfl
  have e11 : quatToMat u 1 1 = 1 - 2 * (u.x ^ 2 + u.z ^ 2) := rfl
  have e12 : quatToMat u 1 2 = 2 * (u.y * u.z - u.x * u.w) := rfl
  have e20 : quatToMat u 2 0 = 2 * (u.x * u.z - u.y * u.w) := rfl
  have e21 : quatToMat u 2 1 = 2 * (u.y * u.z + u.x * u.w) := rfl
  have e22 : quatToMat u 2 2 = 1 - 2 * (u.x ^ 2 + u.y ^ 2) := rfl
  simp only [matrixToQuat]
  split_ifs with h0 h1 h2
  · -- choice 0: m00 is the first maximum, x² is maximal
    obtain ⟨h01, h02, h0t⟩ := h0
    rw [e00, e11] at h01
    rw [e00, e22] at h02
    rw [e00, e11, e22] at h0t
    have hraw : (⟨1 - (quatToMat u 0 0 + quatToMat u 1 1 + quatToMat u 2 2)
          + 2 * quatToMat u 0 0,
        quatToMat u 1 0 + quatToMat u 0 1,
        quatToMat u 2 0 + quatToMat u 0 2,
        quatToMat u 2 1 - quatToMat u 1 2⟩ : Quat) = smulQ (4 * u.x) u := by
      simp only [e00, e01, e02, e10, e11, e12, e20, e21, e22, smulQ, Quat.mk.injEq]
      refine ⟨by ring, by ring, by ring, by ring⟩
    rw [hraw]
    have hx : u.x ≠ 0 := by
      intro hx0
      nlinarith [sq_nonneg u.y, sq_nonneg u.z, sq_nonneg u.w, h01, h02, h0t, hu']
    exact quatToMat_normalize_smul u hu (4 * u.x) (by simpa using hx)
  · -- choice 1: m11 is the first maximum, y² is maximal
    obtain ⟨h12, h1t⟩ := h1
    rw [e11, e22] at h12
    rw [e11, e00, e22] at h1t
    have hraw : (⟨quatToMat u 0 1 + quatToMat u 1 0,
        1 - (quatToMat u 0 0 + quatToMat u 1 1 + quatToMat u 2 2)
          + 2 * quatToMat u 1 1,
        quatToMat u 2 1 + quatToMat u 1 2,
        quatToMat u 0 2 - quatToMat u 2 0⟩ : Quat) = smulQ (4 * u.y) u := by
      simp only [e00, e01, e02, e10, e11, e12, e20, e21, e22, smulQ, Quat.mk.injEq]
      refine ⟨by ring, by ring, by ring, by ring⟩
    rw [hraw]
    have hy : u.y ≠ 0 := by
      intro hy0
      rcases not_and_or.mp h0 with ha | hb
      · rw [e00, e11] at ha
        have ha' := not_le.mp ha
        nlinarith [sq_nonneg u.x]
      · rcases not_and_or.mp hb with hb1 | hb2
        · rw [e00, e22] at hb1
          have hb1' := not_le.mp hb1
          nlinarith [sq_nonneg u.x, sq_nonneg u.z]
        · rw [e00, e11, e22] at hb2
          have hb2' := not_le.mp hb2
          nlinarith [sq_nonneg u.x, sq_nonneg u.z, sq_nonneg u.w, hu']
    exact quatToMat_normalize_smul u hu (4 * u.y) (by simpa using hy)
  · -- choice 2: m22 is the first maximum, z² is maximal
    rw [e22, e00, e11] at h2
    have hraw : (⟨quatToMat u 0 2 + quatToMat u 2 0,
        quatToMat u 1 2 + quatToMat u 2 1,
        1 - (quatToMat u 0 0 + quatToMat u 1 1 + quatToMat u 2 2)
          + 2 * quatToMat u 2 2,
        quatToMat u 1 0 - quatToMat u 0 1⟩ : Quat) = smulQ (4 * u.z) u := by
      simp only [e00, e01, e02, e10, e11, e12, e20, e21, e22, smulQ, Quat.mk.injEq]
      refine ⟨by ring, by ring, by ring, by ring⟩
    rw [hraw]
    have hz : u.z ≠ 0 := by
      intro hz0
      rcases not_and_or.mp h1 with ha | hb
      · rw [e11, e22] at ha
        have ha' := not_le.mp ha
        nlinarith [sq_nonneg u.y]
      · rw [e11, e00, e22] at hb
        have hb' := not_le.mp hb
        nlinarith [sq_nonneg u.x, sq_nonneg u.y, sq_nonneg u.w, hu', h2]
    exact quatToMat_normalize_smul u hu (4 * u.z) (by simpa using hz)
  · -- choice 3: the trace is the strict maximum, w² is maximal
    rw [e22, e00, e11] at h2
    have h2' := not_le.mp h2
    have hraw : (⟨quatToMat u 2 1 - quatToMat u 1 2,
        quatToMat u 0 2 - quatToMat u 2 0,
        quatToMat u 1 0 - quatToMat u 0 1,
        1 + (quatToMat u 0 0 + quatToMat u 1 1 + quatToMat u 2 2)⟩ : Quat)
        = smulQ (4 * u.w) u := by
      simp only [e00, e01, e02, e10, e11, e12, e20, e21, e22, smulQ, Quat.mk.injEq]
      refine ⟨by ring, by ring, by ring, by linear_combination (-4) * hu'⟩
    rw [hraw]
    have hw : u.w ≠ 0 := by
      intro hw0
      nlinarith [sq_nonneg u.z, hu', h2']
    exact quatToMat_normalize_smul u hu (4 * u.w) (by simpa using hw)

/-- C5: `from_global_poses_backup` returns the translation
`child_position − parent_position` in global coordinates, and a rotation
quaternion that represents (has the rotation matrix of) the relative
rotation `child_rotation ∘ parent_rotation⁻¹`. -/
theorem from_global_poses_backup_spec (pp : Fin 3 → ℝ) (pq : Quat)
    (cp : Fin 3 → ℝ) (cq : Quat) (hp : pq.normSq = 1) (hc : cq.normSq = 1) :
    (Transformation.from_global_poses_backup pp pq cp cq).translation
      = (fun i => cp i - pp i) ∧
    quatToMat (Transformation.from_global_poses_backup pp pq cp cq).rotation
      = quatToMat (cq.mul pq.conj) := by
  have hpc : pq.conj.normSq = 1 := by rw [Quat.normSq_conj]; exact hp
  have hmul : (cq.mul pq.conj).normSq = 1 := by
    rw [Quat.normSq_mul, Quat.normSq_conj, hp, hc, one_mul]
  refine ⟨rfl, ?_⟩
  have hinv : (quatToMat pq)⁻¹ = quatToMat pq.conj := by
    refine Matrix.inv_eq_right_inv ?_
    rw [quatToMat_eq_Hmat hp, quatToMat_eq_Hmat hpc, ← Hmat_mul, Quat.mul_conj_self, hp]
    exact Hmat_id
  have hrel : quatToMat cq * (quatToMat pq)⁻¹ = quatToMat (cq.mul pq.conj) := by
    rw [hinv, quatToMat_eq_Hmat hc, quatToMat_eq_Hmat hpc, ← Hmat_mul,
      quatToMat_eq_Hmat hmul]
  have hrot : (Transformation.from_global_poses_backup pp pq cp cq).rotation
      = matrixToQuat (quatToMat cq * (quatToMat pq)⁻¹) := rfl
  rw [hrot, hrel, quatToMat_matrixToQuat _ hmul]

/-- Witness for C5 at identity rotations, parent at the origin, child at
`(1,2,3)`. -/
theorem from_global_poses_backup_spec_witness :
    idQuat.normSq = 1 ∧
    ((Transformation.from_global_poses_backup ![0, 0, 0] idQuat ![1, 2, 3] idQuat).translation
       = (fun i => ![1, 2, 3] i - ![0, 0, 0] i) ∧
     quatToMat (Transformation.from_global_poses_backup ![0, 0, 0] idQuat
         ![1, 2, 3] idQuat).rotation
       = quatToMat (idQuat.mul idQuat.conj)) :=
  have h : idQuat.normSq = 1 := by norm_num [idQuat, Quat.normSq]
  ⟨h, from_global_poses_backup_spec ![0, 0, 0] idQuat ![1, 2, 3] idQuat h h⟩

/-- The function `arctan2` recovers an angle in `(-π, π]` from a positively scaled
sine/cosine pair. -/
theorem arctan2_scaled (k θ : ℝ) (hk : 0 < k) (hθ : θ ∈ Set.Ioc (-Real.pi) Real.pi) :
    arctan2 (k * Real.sin θ) (k * Real.cos θ) = θ := by
  unfold arctan2
  have hz : ((k * Real.cos θ : ℝ) : ℂ) + ((k * Real.sin θ : ℝ) : ℂ) * Complex.I
      = (k : ℂ) * (Complex.cos θ + Complex.sin θ * Complex.I) := by
    rw [← Complex.ofReal_cos, ← Complex.ofReal_sin]
    push_cast
    ring
  rw [hz, Complex.arg_real_mul _ hk, Complex.arg_cos_add_sin_mul_I hθ]

/-- Row-level spherical round trip on the amended domain. -/
theorem sph_round_row (r θ φ : ℝ) (hr : 0 < r) (hθ : θ ∈ Set.Ioc (-Real.pi) Real.pi)
    (hφ1 : 0 < φ) (hφ2 : φ < Real.pi) :
    cartesianRowToSpherical (sphericalRowToCartesian [r, θ, φ]) = [r, θ, φ] := by
  have hsin : 0 < Real.sin φ := Real.sin_pos_of_pos_of_lt_pi hφ1 hφ2
  have hsq : (r * Real.sin φ * Real.cos θ) ^ 2 + (r * Real.sin φ * Real.sin θ) ^ 2
      + (r * Real.cos φ) ^ 2 = r ^ 2 := by
    have hc : Real.sin θ ^ 2 + Real.cos θ ^ 2 = 1 := Real.sin_sq_add_cos_sq θ
    have hc2 : Real.sin φ ^ 2 + Real.cos φ ^ 2 = 1 := Real.sin_sq_add_cos_sq φ
    linear_combination (r ^ 2 * Real.sin φ ^ 2) * hc + r ^ 2 * hc2
  have hrad : Real.sqrt ((r * Real.sin φ * Real.cos θ) ^ 2
      + (r * Real.sin φ * Real.sin θ) ^ 2 + (r * Real.cos φ) ^ 2) = r := by
    rw [hsq]
    exact Real.sqrt_sq hr.le
  have hB : arctan2 (r * Real.sin φ * Real.sin θ) (r * Real.sin φ * Real.cos θ) = θ :=
    arctan2_scaled (r * Real.sin φ) θ (mul_pos hr hsin) hθ
  have hclip : clip (Real.cos φ) (-1) 1 = Real.cos φ := by
    unfold clip
    rw [max_eq_left (Real.neg_one_le_cos φ), min_eq_left (Real.cos_le_one φ)]
  have hrow : cartesianRowToSpherical (sphericalRowToCartesian [r, θ, φ])
      = [Real.sqrt ((r * Real.sin φ * Real.cos θ) ^ 2 + (r * Real.sin φ * Real.sin θ) ^ 2
           + (r * Real.cos φ) ^ 2),
         arctan2 (r * Real.sin φ * Real.sin θ) (r * Real.sin φ * Real.cos θ),
         Real.arccos (clip (r * Real.cos φ /
           Real.sqrt ((r * Real.sin φ * Real.cos θ) ^ 2 + (r * Real.sin φ * Real.sin θ) ^ 2
             + (r * Real.cos φ) ^ 2)) (-1) 1)] := rfl
  rw [hrow, hrad, hB, mul_div_cancel_left₀ _ hr.ne', hclip,
    Real.arccos_cos hφ1.le hφ2.le]

/-- Row-level cylindrical round trip on the amended domain. -/
theorem cyl_round_row (r θ z : ℝ) (hr : 0 < r) (hθ : θ ∈ Set.Ioc (-Real.pi) Real.pi) :
    cartesianRowToCylindrical (cylindricalRowToCartesian [r, θ, z]) = [r, θ, z] := by
  have hsq : (r * Real.cos θ) ^ 2 + (r * Real.sin θ) ^ 2 = r ^ 2 := by
    linear_combination r ^ 2 * Real.sin_sq_add_cos_sq θ
  have hrow : cartesianRowToCylindrical (cylindricalRowToCartesian [r, θ, z])
      = [Real.sqrt ((r * Real.cos θ) ^ 2 + (r * Real.sin θ) ^ 2),
         arctan2 (r * Real.sin θ) (r * Real.cos θ), z] := rfl
  rw [hrow, hsq, Real.sqrt_sq hr.le, arctan2_scaled r θ hr hθ]

/-- C7 counterexample: the claim constrains only `r > 0` and `φ ∈ (0, π)`,
so `θ = 2π` is allowed; the spherical round trip then returns `θ = 0`,
which is `2π` (≈ 6.28, far beyond any tolerance) away from the input. -/
theorem spherical_round_trip_counterexample :
    (0 : ℝ) < 1 ∧ 0 < Real.pi / 2 ∧ Real.pi / 2 < Real.pi ∧
    (spherical_to_cartesian
        (.d2 [[1, 2 * Real.pi, Real.pi / 2]] 3)).bind cartesian_to_spherical
      = .ok (.d2 [[1, 0, Real.pi / 2]] 3) ∧
    (1e-9 : ℝ) < |2 * Real.pi - 0| := by
  refine ⟨one_pos, half_pos Real.pi_pos, half_lt_self Real.pi_pos, ?_, ?_⟩
  · have h1 : sphericalRowToCartesian [1, 2 * Real.pi, Real.pi / 2] = [1, 0, 0] := by
      have : sphericalRowToCartesian [1, 2 * Real.pi, Real.pi / 2]
          = [1 * Real.sin (Real.pi / 2) * Real.cos (2 * Real.pi),
             1 * Real.sin (Real.pi / 2) * Real.sin (2 * Real.pi),
             1 * Real.cos (Real.pi / 2)] := rfl
      rw [this, Real.sin_pi_div_two, Real.cos_two_pi, Real.sin_two_pi, Real.cos_pi_div_two]
      norm_num
    have h2 : cartesianRowToSpherical [1, 0, 0] = [1, 0, Real.pi / 2] := by
      have : cartesianRowToSpherical ([1, 0, 0] : List ℝ)
          = [Real.sqrt ((1 : ℝ) ^ 2 + 0 ^ 2 + 0 ^ 2), arctan2 0 1,
             Real.arccos (clip ((0 : ℝ) / Real.sqrt ((1 : ℝ) ^ 2 + 0 ^ 2 + 0 ^ 2)) (-1) 1)] :=
        rfl
      have hs : Real.sqrt ((1 : ℝ) ^ 2 + 0 ^ 2 + 0 ^ 2) = 1 := by
        norm_num [Real.sqrt_one]
      have ha : arctan2 0 1 = 0 := by
        unfold arctan2
        norm_num [Complex.arg_one]
      have hcl : clip ((0 : ℝ) / 1) (-1) 1 = 0 := by
        unfold clip
        norm_num
      rw [this, hs, ha, hcl, Real.arccos_zero]
    have hcomp : (spherical_to_cartesian
        (.d2 [[1, 2 * Real.pi, Real.pi / 2]] 3)).bind cartesian_to_spherical
        = .ok (.d2 [cartesianRowToSpherical
            (sphericalRowToCartesian [1, 2 * Real.pi, Real.pi / 2])] 3) := rfl
    rw [hcomp, h1, h2]
  · rw [sub_zero, abs_of_pos (by positivity)]
    nlinarith [Real.pi_gt_three]

/-- C7 (amended): the round trips hold once the azimuth is additionally
restricted to `arctan2`'s range `(-π, π]` (and `r > 0` also for the
cylindrical trip): for every N×3 spherical array with `r > 0`,
`θ ∈ (-π, π]`, `φ ∈ (0, π)`, and every N×3 cylindrical array with `r > 0`,
`θ ∈ (-π, π]`, the composed conversions return the input exactly. -/
theorem coordinate_round_trips_amended (rows rows2 : List (List ℝ))
    (h : ∀ p ∈ rows, p.length = 3 ∧ 0 < p.getD 0 0 ∧
      p.getD 1 0 ∈ Set.Ioc (-Real.pi) Real.pi ∧ 0 < p.getD 2 0 ∧ p.getD 2 0 < Real.pi)
    (h2 : ∀ p ∈ rows2, p.length = 3 ∧ 0 < p.getD 0 0 ∧
      p.getD 1 0 ∈ Set.Ioc (-Real.pi) Real.pi) :
    (spherical_to_cartesian (.d2 rows 3)).bind cartesian_to_spherical
      = .ok (.d2 rows 3) ∧
    (cylindrical_to_cartesian (.d2 rows2 3)).bind cartesian_to_cylindrical
      = .ok (.d2 rows2 3) := by
  constructor
  · have h0 : (spherical_to_cartesian (.d2 rows 3)).bind cartesian_to_spherical
        = .ok (.d2 ((rows.map sphericalRowToCartesian).map cartesianRowToSpherical) 3) := rfl
    rw [h0, List.map_map]
    refine congrArg _ (congrArg (fun l => NDArray.d2 l 3) ?_)
    conv_rhs => rw [← List.map_id rows]
    refine List.map_congr_left fun p hp => ?_
    obtain ⟨hlen, hr, hθ, hφ1, hφ2⟩ := h p hp
    obtain ⟨r, θ, φ, rfl⟩ := List.length_eq_three.mp hlen
    exact sph_round_row r θ φ hr hθ hφ1 hφ2
  · have h0 : (cylindrical_to_cartesian (.d2 rows2 3)).bind cartesian_to_cylindrical
        = .ok (.d2 ((rows2.map cylindricalRowToCartesian).map cartesianRowToCylindrical) 3) :=
      rfl
    rw [h0, List.map_map]
    refine congrArg _ (congrArg (fun l => NDArray.d2 l 3) ?_)
    conv_rhs => rw [← List.map_id rows2]
    refine List.map_congr_left fun p hp => ?_
    obtain ⟨hlen, hr, hθ⟩ := h2 p hp
    obtain ⟨r, θ, z, rfl⟩ := List.length_eq_three.mp hlen
    exact cyl_round_row r θ z hr hθ

/-- Witness for C7 (amended) on the spherical row `(1, 0, π/2)` and the
cylindrical row `(1, 0, 5)`. -/
theorem coordinate_round_trips_amended_witness :
    (∀ p ∈ ([[1, 0, Real.pi / 2]] : List (List ℝ)), p.length = 3 ∧ 0 < p.getD 0 0 ∧
      p.getD 1 0 ∈ Set.Ioc (-Real.pi) Real.pi ∧ 0 < p.getD 2 0 ∧ p.getD 2 0 < Real.pi) ∧
    (∀ p ∈ ([[1, 0, 5]] : List (List ℝ)), p.length = 3 ∧ 0 < p.getD 0 0 ∧
      p.getD 1 0 ∈ Set.Ioc (-Real.pi) Real.pi) ∧
    ((spherical_to_cartesian (.d2 [[1, 0, Real.pi / 2]] 3)).bind cartesian_to_spherical
       = .ok (.d2 [[1, 0, Real.pi / 2]] 3) ∧
     (cylindrical_to_cartesian (.d2 [[1, 0, 5]] 3)).bind cartesian_to_cylindrical
       = .ok (.d2 [[1, 0, 5]] 3)) := by
  have hneg : -Real.pi < (0 : ℝ) := by linarith [Real.pi_pos]
  have hA : ∀ p ∈ ([[1, 0, Real.pi / 2]] : List (List ℝ)), p.length = 3 ∧ 0 < p.getD 0 0 ∧
      p.getD 1 0 ∈ Set.Ioc (-Real.pi) Real.pi ∧ 0 < p.getD 2 0 ∧ p.getD 2 0 < Real.pi := by
    intro p hp
    simp only [List.mem_singleton] at hp
    subst hp
    exact ⟨rfl, one_pos, ⟨hneg, Real.pi_pos.le⟩,
      half_pos Real.pi_pos, half_lt_self Real.pi_pos⟩
  have hB : ∀ p ∈ ([[1, 0, 5]] : List (List ℝ)), p.length = 3 ∧ 0 < p.getD 0 0 ∧
      p.getD 1 0 ∈ Set.Ioc (-Real.pi) Real.pi := by
    intro p hp
    simp only [List.mem_singleton] at hp
    subst hp
    exact ⟨rfl, one_pos, ⟨hneg, Real.pi_pos.le⟩⟩
  exact ⟨hA, hB, coordinate_round_trips_amended _ _ hA hB⟩

/-- Row-level output range of `cartesian_to_cylindrical`: nonnegative
radius and angle in `[-π, π]`. -/
theorem cartesianRowToCylindrical_range (v : List ℝ) :
    0 ≤ (cartesianRowToCylindrical v).getD 0 0 ∧
    -Real.pi ≤ (cartesianRowToCylindrical v).getD 1 0 ∧
    (cartesianRowToCylindrical v).getD 1 0 ≤ Real.pi := by
  have h0 : (cartesianRowToCylindrical v).getD 0 0
      = Real.sqrt ((v.getD 0 0) ^ 2 + (v.getD 1 0) ^ 2) := rfl
  have h1 : (cartesianRowToCylindrical v).getD 1 0 = arctan2 (v.getD 1 0) (v.getD 0 0) := rfl
  rw [h0, h1]
  exact ⟨Real.sqrt_nonneg _, (Complex.arg_mem_Ioc _).1.le, (Complex.arg_mem_Ioc _).2⟩

/-- C10: every output row of `cartesian_to_cylindrical` has a nonnegative
radius in column 0 and an angle in `[-π, π]` in column 1; consequently the
cylindrical round trip cannot reproduce an input with a negative radius or
an angle outside that interval. -/
theorem cartesian_to_cylindrical_range (rows : List (List ℝ)) :
    cartesian_to_cylindrical (.d2 rows 3)
      = .ok (.d2 (rows.map cartesianRowToCylindrical) 3) ∧
    (∀ p ∈ rows.map cartesianRowToCylindrical,
      0 ≤ p.getD 0 0 ∧ -Real.pi ≤ p.getD 1 0 ∧ p.getD 1 0 ≤ Real.pi) ∧
    (∀ pts : List (List ℝ),
      (∃ p ∈ pts, p.getD 0 0 < 0 ∨ p.getD 1 0 < -Real.pi ∨ Real.pi < p.getD 1 0) →
      (cylindrical_to_cartesian (.d2 pts 3)).bind cartesian_to_cylindrical
        ≠ .ok (.d2 pts 3)) := by
  refine ⟨rfl, ?_, ?_⟩
  · intro p hp
    obtain ⟨q, hq, rfl⟩ := List.mem_map.mp hp
    exact cartesianRowToCylindrical_range q
  · rintro pts ⟨p, hp, hbad⟩ heq
    have hcomp : (cylindrical_to_cartesian (.d2 pts 3)).bind cartesian_to_cylindrical
        = .ok (.d2 ((pts.map cylindricalRowToCartesian).map cartesianRowToCylindrical) 3) :=
      rfl
    rw [hcomp] at heq
    simp only [Except.ok.injEq, NDArray.d2.injEq, and_true] at heq
    rw [List.map_map] at heq
    have hp' : p ∈ pts.map (cartesianRowToCylindrical ∘ cylindricalRowToCartesian) := by
      rw [heq]
      exact hp
    obtain ⟨q, hq, hpq⟩ := List.mem_map.mp hp'
    subst hpq
    have hb := cartesianRowToCylindrical_range (cylindricalRowToCartesian q)
    simp only [Function.comp_apply] at hbad
    rcases hbad with hb1 | hb2 | hb3
    · linarith [hb.1]
    · linarith [hb.2.1]
    · linarith [hb.2.2]

/-- Witness for C10 on the Cartesian row `(1, 2, 3)` and, for the
impossible-round-trip part, the cylindrical row `(-1, 0, 0)`. -/
theorem cartesian_to_cylindrical_range_witness :
    (∃ p ∈ ([[-1, 0, 0]] : List (List ℝ)),
      p.getD 0 0 < 0 ∨ p.getD 1 0 < -Real.pi ∨ Real.pi < p.getD 1 0) ∧
    cartesian_to_cylindrical (.d2 [[1, 2, 3]] 3)
      = .ok (.d2 (([[1, 2, 3]] : List (List ℝ)).map cartesianRowToCylindrical) 3) ∧
    (∀ p ∈ (([[1, 2, 3]] : List (List ℝ)).map cartesianRowToCylindrical),
      0 ≤ p.getD 0 0 ∧ -Real.pi ≤ p.getD 1 0 ∧ p.getD 1 0 ≤ Real.pi) ∧
    (cylindrical_to_cartesian (.d2 [[-1, 0, 0]] 3)).bind cartesian_to_cylindrical
      ≠ .ok (.d2 [[-1, 0, 0]] 3) := by
  have hbad : ∃ p ∈ ([[-1, 0, 0]] : List (List ℝ)),
      p.getD 0 0 < 0 ∨ p.getD 1 0 < -Real.pi ∨ Real.pi < p.getD 1 0 :=
    ⟨[-1, 0, 0], List.mem_singleton.mpr rfl, Or.inl (by norm_num)⟩
  exact ⟨hbad, (cartesian_to_cylindrical_range [[1, 2, 3]]).1,
    (cartesian_to_cylindrical_range [[1, 2, 3]]).2.1,
    (cartesian_to_cylindrical_range [[1, 2, 3]]).2.2 _ hbad⟩

end Geometries
